import Mathlib

/-!
External Navigation Protocol (ENP): size helpers, type ids and wire layout.

A shallow embedding of `app/src/main/cpp/include/external_navigation_protocol.h`.

* C unsigned integers are natural numbers; a conversion to `size_t` and every
  `size_t` addition is reduced modulo `2 ^ w`, where `w` is the width of
  `size_t` on the platform (32 or 64 on the ABIs the app is built for).
* Bytes are natural numbers below 256, byte buffers are lists of bytes.
* The header declares the wire shape only.  The frame layout and the codec
  (`encode`, `decode`) follow the written design and are marked as such.
-/

namespace ENP

/-! ## Constants of the header -/

/-- Multi-byte integer fields in the wire protocol are big-endian. -/
def ENP_PROTOCOL_BIG_ENDIAN : Nat := 1

/-- Width of the message type field, in bytes (`4u`). -/
def ENP_MESSAGE_TYPE_SIZE_BYTES : Nat := 4

/-- Width of the total length field, in bytes (`4u`). -/
def ENP_MESSAGE_LENGTH_SIZE_BYTES : Nat := 4

/-- Width of the attribute type field, in bytes (`2u`). -/
def ENP_ATTRIBUTE_TYPE_SIZE_BYTES : Nat := 2

/-- Width of the attribute length field, in bytes (`2u`). -/
def ENP_ATTRIBUTE_LENGTH_SIZE_BYTES : Nat := 2

/-- Current fixed header size used by all defined message types (`8u`). -/
def ENP_FIXED_HEADER_SIZE_BYTES : Nat := 8

/-! ## Machine integers -/

/-- Largest value of a `uint16_t`. -/
def UINT16_MAX : Nat := 65535

/-- Largest value of a `uint32_t`. -/
def UINT32_MAX : Nat := 4294967295

/-- Largest value of a `size_t` that is `w` bits wide. -/
def SIZE_MAX (w : Nat) : Nat := 2 ^ w - 1

/-- The C conversion `(size_t)x` of an unsigned value, for a `w`-bit `size_t`. -/
def toSizeT (w : Nat) (x : Nat) : Nat := x % 2 ^ w

/-- Addition of two `size_t` values: unsigned, wrapping modulo `2 ^ w`. -/
def sizeAdd (w : Nat) (a b : Nat) : Nat := (a + b) % 2 ^ w

/-! ## Message type ids -/

/-- Message type IDs (`enum enp_message_type`). -/
inductive enp_message_type where
  | ENP_MESSAGE_TYPE_INVALID
  | ENP_MESSAGE_TYPE_HANDSHAKE
  | ENP_MESSAGE_TYPE_DESTINATION
  | ENP_MESSAGE_TYPE_MOVEMENT
  | ENP_MESSAGE_TYPE_LOCATION_REQUEST
  | ENP_MESSAGE_TYPE_LOCATION_UPDATE
  deriving DecidableEq, Repr

open enp_message_type

/-- Numeric value the header assigns to each enumerator. -/
def enp_message_type.value : enp_message_type → Nat
  | ENP_MESSAGE_TYPE_INVALID => 0
  | ENP_MESSAGE_TYPE_HANDSHAKE => 1
  | ENP_MESSAGE_TYPE_DESTINATION => 2
  | ENP_MESSAGE_TYPE_MOVEMENT => 3
  | ENP_MESSAGE_TYPE_LOCATION_REQUEST => 4
  | ENP_MESSAGE_TYPE_LOCATION_UPDATE => 5

/-- Every enumerator of `enp_message_type`, in declaration order. -/
def enp_message_type.all : List enp_message_type :=
  [ENP_MESSAGE_TYPE_INVALID, ENP_MESSAGE_TYPE_HANDSHAKE, ENP_MESSAGE_TYPE_DESTINATION,
   ENP_MESSAGE_TYPE_MOVEMENT, ENP_MESSAGE_TYPE_LOCATION_REQUEST,
   ENP_MESSAGE_TYPE_LOCATION_UPDATE]

/-! ## Size helpers -/

/-- Returns encoded TLV size (type + length + payload) for one attribute.
The argument is a `uint16_t`; the three summands are converted to `size_t`
and added left to right. -/
def enp_attribute_encoded_size (w : Nat) (payload_size : Nat) : Nat :=
  sizeAdd w
    (sizeAdd w (toSizeT w ENP_ATTRIBUTE_TYPE_SIZE_BYTES)
               (toSizeT w ENP_ATTRIBUTE_LENGTH_SIZE_BYTES))
    (toSizeT w payload_size)

/-- Returns total encoded message size for 8-byte message-specific headers.
The argument already is a `size_t`; the sum is formed left to right. -/
def enp_message_encoded_size (w : Nat) (attributes_total_size : Nat) : Nat :=
  sizeAdd w
    (sizeAdd w
      (sizeAdd w (toSizeT w ENP_MESSAGE_TYPE_SIZE_BYTES)
                 (toSizeT w ENP_MESSAGE_LENGTH_SIZE_BYTES))
      (toSizeT w ENP_FIXED_HEADER_SIZE_BYTES))
    attributes_total_size

/-- Sum of the encoded TLV sizes of a sequence of attributes, accumulated in a
`size_t` the way a writer sizing its output buffer does: start from 0 and add
`enp_attribute_encoded_size` of each payload size in turn. -/
def attributes_total_size (w : Nat) (payload_sizes : List Nat) : Nat :=
  payload_sizes.foldl (fun acc p => sizeAdd w acc (enp_attribute_encoded_size w p)) 0

/-! ## Host representations -/

/-- Optional TLV attribute descriptor (host representation).  The C member
`payload` points at `payload_size` bytes; here it is the byte sequence. -/
structure enp_attribute where
  type : Nat
  payload : List Nat
  payload_size : Nat
  deriving DecidableEq, Repr

/-- HANDSHAKE message-specific header (host representation). -/
structure enp_handshake_header where
  protocol_version : Nat
  capabilities_flags : Nat
  deriving DecidableEq, Repr

/-- DESTINATION message-specific header (host representation). -/
structure enp_destination_header where
  direction : Nat
  distance_meters : Nat
  deriving DecidableEq, Repr

/-- MOVEMENT message-specific header (host representation). -/
structure enp_movement_header where
  direction : Nat
  speed_centimeters_per_second : Nat
  deriving DecidableEq, Repr

/-- LOCATION_REQUEST message-specific header (host representation). -/
structure enp_location_request_header where
  reserved0 : Nat
  reserved1 : Nat
  deriving DecidableEq, Repr

/-- LOCATION_UPDATE message-specific header (host representation). -/
structure enp_location_header where
  latitude_e7 : Nat
  longitude_e7 : Nat
  deriving DecidableEq, Repr

/-! ## The struct declarations as data -/

/-- C types that occur as members of the structs of the header. -/
inductive CType where
  | uint8_ptr
  | uint16_t
  | uint32_t
  deriving DecidableEq, Repr

/-- Width in bytes of a fixed-width integer member; a pointer has no wire width. -/
def CType.wireWidth : CType → Nat
  | CType.uint8_ptr => 0
  | CType.uint16_t => 2
  | CType.uint32_t => 4

/-- One member of a struct declaration: its name and its C type. -/
structure CField where
  name : String
  ctype : CType
  deriving DecidableEq, Repr

/-- Members of `struct enp_handshake_header`, in declaration order. -/
def enp_handshake_header_fields : List CField :=
  [⟨"protocol_version", CType.uint32_t⟩, ⟨"capabilities_flags", CType.uint32_t⟩]

/-- Members of `struct enp_destination_header`, in declaration order. -/
def enp_destination_header_fields : List CField :=
  [⟨"direction", CType.uint32_t⟩, ⟨"distance_meters", CType.uint32_t⟩]

/-- Members of `struct enp_movement_header`, in declaration order. -/
def enp_movement_header_fields : List CField :=
  [⟨"direction", CType.uint32_t⟩, ⟨"speed_centimeters_per_second", CType.uint32_t⟩]

/-- Members of `struct enp_location_request_header`, in declaration order. -/
def enp_location_request_header_fields : List CField :=
  [⟨"reserved0", CType.uint32_t⟩, ⟨"reserved1", CType.uint32_t⟩]

/-- Members of `struct enp_location_header`, in declaration order. -/
def enp_location_header_fields : List CField :=
  [⟨"latitude_e7", CType.uint32_t⟩, ⟨"longitude_e7", CType.uint32_t⟩]

/-- The header struct the C file documents for each message type; `INVALID`
has none. -/
def header_fields : enp_message_type → List CField
  | ENP_MESSAGE_TYPE_INVALID => []
  | ENP_MESSAGE_TYPE_HANDSHAKE => enp_handshake_header_fields
  | ENP_MESSAGE_TYPE_DESTINATION => enp_destination_header_fields
  | ENP_MESSAGE_TYPE_MOVEMENT => enp_movement_header_fields
  | ENP_MESSAGE_TYPE_LOCATION_REQUEST => enp_location_request_header_fields
  | ENP_MESSAGE_TYPE_LOCATION_UPDATE => enp_location_header_fields

/-- Sum of the wire widths of the members of a struct. -/
def fields_width (fs : List CField) : Nat :=
  (fs.map (fun f => f.ctype.wireWidth)).sum

/-- The fixed header layouts as the design document enumerates them: for each
message type the two field names, both `u32`, in wire order. -/
def spec_header_layout : enp_message_type → List (String × Nat)
  | ENP_MESSAGE_TYPE_INVALID => []
  | ENP_MESSAGE_TYPE_HANDSHAKE => [("protocol_version", 4), ("capabilities_flags", 4)]
  | ENP_MESSAGE_TYPE_DESTINATION => [("direction", 4), ("distance_meters", 4)]
  | ENP_MESSAGE_TYPE_MOVEMENT => [("direction", 4), ("speed_centimeters_per_second", 4)]
  | ENP_MESSAGE_TYPE_LOCATION_REQUEST => [("reserved0", 4), ("reserved1", 4)]
  | ENP_MESSAGE_TYPE_LOCATION_UPDATE => [("latitude_e7", 4), ("longitude_e7", 4)]

/-! ## Big-endian fields -/

/-- The two bytes of a big-endian 16-bit field holding `v`. -/
def be16 (v : Nat) : List Nat :=
  [v / 256 % 256, v % 256]

/-- The four bytes of a big-endian 32-bit field holding `v`. -/
def be32 (v : Nat) : List Nat :=
  [v / 16777216 % 256, v / 65536 % 256, v / 256 % 256, v % 256]

/-- Reads a big-endian 16-bit field from the first two bytes of a buffer. -/
def read_be16 (buf : List Nat) : Nat :=
  buf.getD 0 0 * 256 + buf.getD 1 0

/-- Reads a big-endian 32-bit field from the first four bytes of a buffer. -/
def read_be32 (buf : List Nat) : Nat :=
  buf.getD 0 0 * 16777216 + buf.getD 1 0 * 65536 + buf.getD 2 0 * 256 + buf.getD 3 0

/-! ## Wire layout

The layout the header documents: message type (4 bytes), total length
(4 bytes), message-specific header (8 bytes), then the attributes; each
attribute is attribute type (2 bytes), attribute length (2 bytes, counting
type + length + payload) and the payload. -/

/-- Exact size of one TLV: `4 + payload_size`. -/
def tlv_size (a : enp_attribute) : Nat :=
  4 + a.payload_size

/-- Exact size of all TLVs of a sequence of attributes. -/
def tlv_total : List enp_attribute → Nat
  | [] => 0
  | a :: rest => tlv_size a + tlv_total rest

/-- Exact size of a frame carrying the given attributes. -/
def frame_size (attrs : List enp_attribute) : Nat :=
  16 + tlv_total attrs

/-- One attribute on the wire: 2-byte type, 2-byte length (= 4 + payload size),
payload bytes. -/
def attribute_wire (a : enp_attribute) : List Nat :=
  be16 a.type ++ be16 (tlv_size a) ++ a.payload

/-- The attributes on the wire, concatenated in sequence order with no
separators or padding. -/
def attributes_wire : List enp_attribute → List Nat
  | [] => []
  | a :: rest => attribute_wire a ++ attributes_wire rest

/-- A frame on the wire: 4-byte type, 4-byte total length, the two 32-bit
fields of the fixed header, then the attributes. -/
def frame_wire (message_type field0 field1 : Nat) (attrs : List enp_attribute) : List Nat :=
  be32 message_type ++ be32 (frame_size attrs) ++ be32 field0 ++ be32 field1 ++
    attributes_wire attrs

/-! ## Messages and the codec

The header stops at the wire shape and the size helpers; it has no encoder
and no decoder.  The definitions of this section follow the design document. -/

/-- Modelled from the spec: the `Message` value, which the header does not
declare.  A tagged union over the five message kinds; every variant carries
its message-specific fixed header and an ordered sequence of attributes. -/
inductive Message where
  | handshake (header : enp_handshake_header) (attributes : List enp_attribute)
  | destination (header : enp_destination_header) (attributes : List enp_attribute)
  | movement (header : enp_movement_header) (attributes : List enp_attribute)
  | location_request (header : enp_location_request_header)
      (attributes : List enp_attribute)
  | location_update (header : enp_location_header) (attributes : List enp_attribute)
  deriving DecidableEq, Repr

/-- Message type of a message; never `INVALID`. -/
def Message.message_type : Message → enp_message_type
  | Message.handshake _ _ => ENP_MESSAGE_TYPE_HANDSHAKE
  | Message.destination _ _ => ENP_MESSAGE_TYPE_DESTINATION
  | Message.movement _ _ => ENP_MESSAGE_TYPE_MOVEMENT
  | Message.location_request _ _ => ENP_MESSAGE_TYPE_LOCATION_REQUEST
  | Message.location_update _ _ => ENP_MESSAGE_TYPE_LOCATION_UPDATE

/-- First 32-bit field of the fixed header of a message. -/
def Message.field0 : Message → Nat
  | Message.handshake h _ => h.protocol_version
  | Message.destination h _ => h.direction
  | Message.movement h _ => h.direction
  | Message.location_request h _ => h.reserved0
  | Message.location_update h _ => h.latitude_e7

/-- Second 32-bit field of the fixed header of a message. -/
def Message.field1 : Message → Nat
  | Message.handshake h _ => h.capabilities_flags
  | Message.destination h _ => h.distance_meters
  | Message.movement h _ => h.speed_centimeters_per_second
  | Message.location_request h _ => h.reserved1
  | Message.location_update h _ => h.longitude_e7

/-- Attributes of a message, in order. -/
def Message.attributes : Message → List enp_attribute
  | Message.handshake _ as => as
  | Message.destination _ as => as
  | Message.movement _ as => as
  | Message.location_request _ as => as
  | Message.location_update _ as => as

/-- A message of the given type built from the two header fields and the
attributes; there is none of type `INVALID`. -/
def Message.ofParts (t : enp_message_type) (field0 field1 : Nat)
    (attrs : List enp_attribute) : Option Message :=
  match t with
  | ENP_MESSAGE_TYPE_INVALID => none
  | ENP_MESSAGE_TYPE_HANDSHAKE => some (Message.handshake ⟨field0, field1⟩ attrs)
  | ENP_MESSAGE_TYPE_DESTINATION => some (Message.destination ⟨field0, field1⟩ attrs)
  | ENP_MESSAGE_TYPE_MOVEMENT => some (Message.movement ⟨field0, field1⟩ attrs)
  | ENP_MESSAGE_TYPE_LOCATION_REQUEST =>
      some (Message.location_request ⟨field0, field1⟩ attrs)
  | ENP_MESSAGE_TYPE_LOCATION_UPDATE =>
      some (Message.location_update ⟨field0, field1⟩ attrs)

/-- The message type a 32-bit wire value names, if it is one a decoder
recognises: a defined enumerator other than `INVALID`. -/
def recognise (v : Nat) : Option enp_message_type :=
  (enp_message_type.all.filter
    (fun t => decide (t ≠ ENP_MESSAGE_TYPE_INVALID) && decide (t.value = v))).head?

/-- An attribute whose members hold values of their C types and whose
`payload_size` is the exact length of `payload`. -/
def enp_attribute.wellFormed (a : enp_attribute) : Prop :=
  a.type ≤ UINT16_MAX ∧ a.payload_size ≤ UINT16_MAX ∧
  a.payload.length = a.payload_size ∧ ∀ b ∈ a.payload, b < 256

instance (a : enp_attribute) : Decidable a.wellFormed := by
  unfold enp_attribute.wellFormed
  infer_instance

/-- Modelled from the spec: the input constraints of `encode`, which the header
does not state.  Header fields are `u32`, every attribute is well formed, the
TLV size of every attribute fits its 16-bit length field and the total length
fits its 32-bit field. -/
def Message.valid (m : Message) : Prop :=
  m.field0 ≤ UINT32_MAX ∧ m.field1 ≤ UINT32_MAX ∧
  (∀ a ∈ m.attributes, a.wellFormed ∧ tlv_size a ≤ UINT16_MAX) ∧
  frame_size m.attributes ≤ UINT32_MAX

instance (m : Message) : Decidable m.valid := by
  unfold Message.valid
  infer_instance

/-- Modelled from the spec: the error values of `encode`. -/
inductive EncodeError where
  | UnsupportedMessageType
  | AttributeTooLarge
  | TotalSizeOverflow
  deriving DecidableEq, Repr

/-- Modelled from the spec: the error values of `decode`. -/
inductive DecodeError where
  | Truncated
  | UnknownMessageType (value : Nat)
  | LengthMismatch (declared actual : Nat)
  | TruncatedAttribute
  | InvalidAttributeLength
  | TrailingGarbage
  deriving DecidableEq, Repr

deriving instance DecidableEq for Except

/-- Modelled from the spec: `encode`, absent from the header.  Fails with
`UnsupportedMessageType` for the `INVALID` tag, with `AttributeTooLarge` if the
TLV size of an attribute exceeds 65535, with `TotalSizeOverflow` if the total
length does not fit in 32 bits; otherwise yields the frame laid out as type,
total length, fixed header and the attributes in order. -/
def encode (m : Message) : Except EncodeError (List Nat) :=
  if m.message_type = ENP_MESSAGE_TYPE_INVALID then
    Except.error EncodeError.UnsupportedMessageType
  else if m.attributes.any (fun a => decide (UINT16_MAX < tlv_size a)) then
    Except.error EncodeError.AttributeTooLarge
  else if UINT32_MAX < frame_size m.attributes then
    Except.error EncodeError.TotalSizeOverflow
  else
    Except.ok (frame_wire m.message_type.value m.field0 m.field1 m.attributes)

/-- Modelled from the spec: step 5 of `decode`, the walk over the TLV
attributes of the bytes left after the fixed header.  One to three leftover
bytes are `TrailingGarbage`; a declared length below 4 is
`InvalidAttributeLength`; a declared length reaching past the buffer is
`TruncatedAttribute`.  Every round consumes at least four bytes, so a `fuel`
of the buffer length is never used up. -/
def decode_attributes : Nat → List Nat → Except DecodeError (List enp_attribute)
  | _, [] => Except.ok []
  | 0, _ :: _ => Except.error DecodeError.TruncatedAttribute
  | fuel + 1, b :: bs =>
    if (b :: bs).length < 4 then Except.error DecodeError.TrailingGarbage
    else
      let attr_type := read_be16 (b :: bs)
      let attr_total_len := read_be16 ((b :: bs).drop 2)
      if attr_total_len < 4 then Except.error DecodeError.InvalidAttributeLength
      else if (b :: bs).length < attr_total_len then
        Except.error DecodeError.TruncatedAttribute
      else
        match decode_attributes fuel ((b :: bs).drop attr_total_len) with
        | Except.error e => Except.error e
        | Except.ok rest =>
          Except.ok
            (⟨attr_type, ((b :: bs).drop 4).take (attr_total_len - 4), attr_total_len - 4⟩
              :: rest)

/-- Modelled from the spec: `decode`, absent from the header.  Step 1 requires
16 bytes, step 2 a recognised message type, step 3 a total length equal to the
number of bytes supplied, step 4 reads the two header fields, step 5 walks the
attributes. -/
def decode (buf : List Nat) : Except DecodeError Message :=
  if buf.length < ENP_MESSAGE_TYPE_SIZE_BYTES + ENP_MESSAGE_LENGTH_SIZE_BYTES +
      ENP_FIXED_HEADER_SIZE_BYTES then
    Except.error DecodeError.Truncated
  else
    match recognise (read_be32 buf) with
    | none => Except.error (DecodeError.UnknownMessageType (read_be32 buf))
    | some t =>
      if read_be32 (buf.drop 4) ≠ buf.length then
        Except.error (DecodeError.LengthMismatch (read_be32 (buf.drop 4)) buf.length)
      else
        match decode_attributes (buf.length) (buf.drop 16) with
        | Except.error e => Except.error e
        | Except.ok attrs =>
          match Message.ofParts t (read_be32 (buf.drop 8)) (read_be32 (buf.drop 12)) attrs with
          | none => Except.error (DecodeError.UnknownMessageType (read_be32 buf))
          | some m => Except.ok m

/-! ## Arithmetic of the size helpers -/

theorem two_pow_ge_of_le {w : Nat} (hw : 32 ≤ w) : 4294967296 ≤ 2 ^ w := by
  have h : 2 ^ 32 ≤ 2 ^ w := Nat.pow_le_pow_right (by decide) hw
  have e : (2 : Nat) ^ 32 = 4294967296 := by norm_num
  omega

theorem attribute_size_mod (w p : Nat) :
    enp_attribute_encoded_size w p = (4 + p) % 2 ^ w := by
  simp only [enp_attribute_encoded_size, sizeAdd, toSizeT, ENP_ATTRIBUTE_TYPE_SIZE_BYTES,
    ENP_ATTRIBUTE_LENGTH_SIZE_BYTES]
  have h1 : (2 % 2 ^ w + 2 % 2 ^ w) % 2 ^ w = 4 % 2 ^ w := by
    rw [← Nat.add_mod]
  rw [h1, ← Nat.add_mod]

theorem message_size_mod (w a : Nat) :
    enp_message_encoded_size w a = (16 + a) % 2 ^ w := by
  simp only [enp_message_encoded_size, sizeAdd, toSizeT, ENP_MESSAGE_TYPE_SIZE_BYTES,
    ENP_MESSAGE_LENGTH_SIZE_BYTES, ENP_FIXED_HEADER_SIZE_BYTES]
  have h1 : (4 % 2 ^ w + 4 % 2 ^ w) % 2 ^ w = 8 % 2 ^ w := by
    rw [← Nat.add_mod]
  have h2 : (8 % 2 ^ w + 8 % 2 ^ w) % 2 ^ w = 16 % 2 ^ w := by
    rw [← Nat.add_mod]
  rw [h1, h2, Nat.mod_add_mod]

theorem attribute_size_exact {w p : Nat} (hw : 32 ≤ w) (hp : p ≤ UINT16_MAX) :
    enp_attribute_encoded_size w p = 4 + p := by
  have h := two_pow_ge_of_le hw
  rw [attribute_size_mod]
  simp only [UINT16_MAX] at hp
  exact Nat.mod_eq_of_lt (by omega)

theorem message_size_exact {w a : Nat} (h : a + 16 ≤ SIZE_MAX w) :
    enp_message_encoded_size w a = 16 + a := by
  rw [message_size_mod]
  simp only [SIZE_MAX] at h
  exact Nat.mod_eq_of_lt (by omega)

/-! ## Claims on the size helpers -/

/-- C1: for every `uint16_t` payload size the attribute helper returns exactly
`4 + payload_size`, that is attribute type width + attribute length width +
payload, on every platform whose `size_t` has at least 32 bits. -/
theorem attribute_encoded_size_eq (w : Nat) (hw : 32 ≤ w) (payload_size : Nat)
    (hp : payload_size ≤ UINT16_MAX) :
    enp_attribute_encoded_size w payload_size = 4 + payload_size ∧
    enp_attribute_encoded_size w payload_size =
      ENP_ATTRIBUTE_TYPE_SIZE_BYTES + ENP_ATTRIBUTE_LENGTH_SIZE_BYTES + payload_size := by
  have h := attribute_size_exact hw hp
  refine ⟨h, ?_⟩
  rw [h]
  simp only [ENP_ATTRIBUTE_TYPE_SIZE_BYTES, ENP_ATTRIBUTE_LENGTH_SIZE_BYTES]

theorem attribute_encoded_size_eq_witness :
    32 ≤ 32 ∧ 65535 ≤ UINT16_MAX ∧
    enp_attribute_encoded_size 32 65535 = 4 + 65535 ∧
    enp_attribute_encoded_size 32 65535 =
      ENP_ATTRIBUTE_TYPE_SIZE_BYTES + ENP_ATTRIBUTE_LENGTH_SIZE_BYTES + 65535 :=
  ⟨by decide, by decide, attribute_encoded_size_eq 32 (by decide) 65535 (by decide)⟩

/-- C2: whenever `attributes_total_size + 16` is representable in `size_t`, the
message helper returns exactly `16 + attributes_total_size`: type field +
length field + fixed header + all attribute bytes, nothing else. -/
theorem message_encoded_size_eq (w : Nat) (attributes_total_size : Nat)
    (h : attributes_total_size + 16 ≤ SIZE_MAX w) :
    enp_message_encoded_size w attributes_total_size = 16 + attributes_total_size ∧
    enp_message_encoded_size w attributes_total_size =
      ENP_MESSAGE_TYPE_SIZE_BYTES + ENP_MESSAGE_LENGTH_SIZE_BYTES +
        ENP_FIXED_HEADER_SIZE_BYTES + attributes_total_size := by
  have e := message_size_exact h
  refine ⟨e, ?_⟩
  rw [e]
  simp only [ENP_MESSAGE_TYPE_SIZE_BYTES, ENP_MESSAGE_LENGTH_SIZE_BYTES,
    ENP_FIXED_HEADER_SIZE_BYTES]

theorem message_encoded_size_eq_witness :
    1000 + 16 ≤ SIZE_MAX 32 ∧
    enp_message_encoded_size 32 1000 = 16 + 1000 ∧
    enp_message_encoded_size 32 1000 =
      ENP_MESSAGE_TYPE_SIZE_BYTES + ENP_MESSAGE_LENGTH_SIZE_BYTES +
        ENP_FIXED_HEADER_SIZE_BYTES + 1000 :=
  ⟨by decide, message_encoded_size_eq 32 1000 (by decide)⟩

/-! ## Lengths on the wire -/

theorem be16_length (v : Nat) : (be16 v).length = 2 := rfl

theorem be32_length (v : Nat) : (be32 v).length = 4 := rfl

theorem attribute_wire_length (a : enp_attribute) :
    (attribute_wire a).length = 4 + a.payload.length := by
  simp only [attribute_wire, List.length_append, be16_length]

theorem attributes_wire_length (attrs : List enp_attribute)
    (h : ∀ a ∈ attrs, a.payload.length = a.payload_size) :
    (attributes_wire attrs).length = tlv_total attrs := by
  induction attrs with
  | nil => rfl
  | cons a rest ih =>
    have ha : a.payload.length = a.payload_size := h a (List.mem_cons_self a rest)
    have hr : (attributes_wire rest).length = tlv_total rest :=
      ih (fun x hx => h x (List.mem_cons_of_mem a hx))
    simp only [attributes_wire, tlv_total, tlv_size, List.length_append,
      attribute_wire_length, ha, hr]

theorem frame_wire_length (message_type field0 field1 : Nat) (attrs : List enp_attribute)
    (h : ∀ a ∈ attrs, a.payload.length = a.payload_size) :
    (frame_wire message_type field0 field1 attrs).length = frame_size attrs := by
  simp only [frame_wire, frame_size, List.length_append, be32_length,
    attributes_wire_length attrs h]

/-! ## Reading back big-endian fields -/

theorem read_be16_be16 (v : Nat) (hv : v ≤ UINT16_MAX) (rest : List Nat) :
    read_be16 (be16 v ++ rest) = v := by
  simp only [UINT16_MAX] at hv
  simp only [read_be16, be16, List.cons_append, List.nil_append, List.getD_cons_zero,
    List.getD_cons_succ]
  omega

theorem read_be32_be32 (v : Nat) (hv : v ≤ UINT32_MAX) (rest : List Nat) :
    read_be32 (be32 v ++ rest) = v := by
  simp only [UINT32_MAX] at hv
  simp only [read_be32, be32, List.cons_append, List.nil_append, List.getD_cons_zero,
    List.getD_cons_succ]
  omega

/-! ## The accumulated attribute size -/

theorem attributes_total_size_foldl (w : Nat) (hw : 32 ≤ w) (ps : List Nat) :
    ∀ acc : Nat, (∀ p ∈ ps, p ≤ UINT16_MAX) →
      acc + (ps.map (fun p => 4 + p)).sum ≤ SIZE_MAX w →
      ps.foldl (fun acc p => sizeAdd w acc (enp_attribute_encoded_size w p)) acc =
        acc + (ps.map (fun p => 4 + p)).sum := by
  induction ps with
  | nil => intro acc _ _; simp
  | cons p rest ih =>
    intro acc hps hfit
    have hp : p ≤ UINT16_MAX := hps p (List.mem_cons_self p rest)
    simp only [List.map_cons, List.sum_cons] at hfit
    simp only [List.foldl_cons, List.map_cons, List.sum_cons]
    have hstep : sizeAdd w acc (enp_attribute_encoded_size w p) = acc + (4 + p) := by
      rw [attribute_size_exact hw hp]
      simp only [sizeAdd]
      simp only [SIZE_MAX] at hfit
      exact Nat.mod_eq_of_lt (by omega)
    rw [hstep, ih (acc + (4 + p)) (fun q hq => hps q (List.mem_cons_of_mem p hq))
      (by omega)]
    omega

theorem tlv_total_eq_sum (attrs : List enp_attribute) :
    tlv_total attrs = ((attrs.map (fun a => a.payload_size)).map (fun p => 4 + p)).sum := by
  induction attrs with
  | nil => rfl
  | cons a rest ih => simp only [tlv_total, tlv_size, List.map_cons, List.sum_cons, ih]

theorem attributes_total_size_exact (w : Nat) (hw : 32 ≤ w) (attrs : List enp_attribute)
    (hsz : ∀ a ∈ attrs, a.payload_size ≤ UINT16_MAX)
    (hfit : tlv_total attrs ≤ SIZE_MAX w) :
    attributes_total_size w (attrs.map (fun a => a.payload_size)) = tlv_total attrs := by
  have hps : ∀ p ∈ attrs.map (fun a => a.payload_size), p ≤ UINT16_MAX := by
    intro p hp
    obtain ⟨a, ha, rfl⟩ := List.mem_map.mp hp
    exact hsz a ha
  rw [tlv_total_eq_sum] at hfit ⊢
  have h := attributes_total_size_foldl w hw _ 0 hps (by omega)
  simpa [attributes_total_size] using h

/-! ## Decoding what the layout wrote -/

theorem recognise_value (t : enp_message_type) (ht : t ≠ ENP_MESSAGE_TYPE_INVALID) :
    recognise t.value = some t := by
  cases t
  · exact absurd rfl ht
  all_goals rfl

theorem recognise_eq_some_iff (v : Nat) (t : enp_message_type) :
    recognise v = some t ↔ t ≠ ENP_MESSAGE_TYPE_INVALID ∧ t.value = v := by
  by_cases h : v ≤ 5
  · have hv : v = 0 ∨ v = 1 ∨ v = 2 ∨ v = 3 ∨ v = 4 ∨ v = 5 := by omega
    rcases hv with rfl | rfl | rfl | rfl | rfl | rfl <;> cases t <;> decide
  · have hnone : recognise v = none := by
      have h1 : ¬ (1 = v) := by omega
      have h2 : ¬ (2 = v) := by omega
      have h3 : ¬ (3 = v) := by omega
      have h4 : ¬ (4 = v) := by omega
      have h5 : ¬ (5 = v) := by omega
      simp [recognise, enp_message_type.all, enp_message_type.value, h1, h2, h3, h4, h5]
    rw [hnone]
    constructor
    · intro h0; exact absurd h0 (by simp)
    · rintro ⟨_, hval⟩
      have : t.value ≤ 5 := by cases t <;> decide
      omega

theorem ofParts_parts (m : Message) :
    Message.ofParts m.message_type m.field0 m.field1 m.attributes = some m := by
  cases m <;> rfl

theorem message_type_ne_invalid (m : Message) :
    m.message_type ≠ ENP_MESSAGE_TYPE_INVALID := by
  cases m <;> simp [Message.message_type]

theorem attributes_wire_cons (a : enp_attribute) (rest : List enp_attribute) :
    attributes_wire (a :: rest) =
      (a.type / 256 % 256) :: (a.type % 256) :: (tlv_size a / 256 % 256) ::
        (tlv_size a % 256) :: (a.payload ++ attributes_wire rest) := by
  simp [attributes_wire, attribute_wire, be16]

theorem decode_attributes_wire (attrs : List enp_attribute) :
    ∀ fuel : Nat, (∀ a ∈ attrs, a.wellFormed ∧ tlv_size a ≤ UINT16_MAX) →
      (attributes_wire attrs).length ≤ fuel →
      decode_attributes fuel (attributes_wire attrs) = Except.ok attrs := by
  induction attrs with
  | nil => intro fuel _ _; cases fuel <;> rfl
  | cons a rest ih =>
    intro fuel hall hfuel
    obtain ⟨⟨hty, _, hlen, _⟩, htlv⟩ := hall a (List.mem_cons_self a rest)
    have hrest : ∀ x ∈ rest, x.wellFormed ∧ tlv_size x ≤ UINT16_MAX :=
      fun x hx => hall x (List.mem_cons_of_mem a hx)
    rw [attributes_wire_cons] at hfuel ⊢
    simp only [List.length_cons, List.length_append] at hfuel
    cases fuel with
    | zero => omega
    | succ fuel =>
      simp only [UINT16_MAX, tlv_size] at hty htlv
      have hT : read_be16 ((a.type / 256 % 256) :: (a.type % 256) ::
          (tlv_size a / 256 % 256) :: (tlv_size a % 256) ::
          (a.payload ++ attributes_wire rest)) = a.type := by
        simp only [read_be16, List.getD_cons_zero, List.getD_cons_succ]
        omega
      have hL : read_be16 (((a.type / 256 % 256) :: (a.type % 256) ::
          (tlv_size a / 256 % 256) :: (tlv_size a % 256) ::
          (a.payload ++ attributes_wire rest)).drop 2) = tlv_size a := by
        simp only [List.drop_succ_cons, List.drop_zero, read_be16, List.getD_cons_zero,
          List.getD_cons_succ, tlv_size]
        omega
      have hdrop : ((a.type / 256 % 256) :: (a.type % 256) ::
          (tlv_size a / 256 % 256) :: (tlv_size a % 256) ::
          (a.payload ++ attributes_wire rest)).drop (tlv_size a)
          = attributes_wire rest := by
        have e : tlv_size a = a.payload.length + 4 := by
          simp only [tlv_size]; omega
        rw [e]
        simp only [List.drop_succ_cons]
        exact List.drop_left _ _
      have htake : (((a.type / 256 % 256) :: (a.type % 256) ::
          (tlv_size a / 256 % 256) :: (tlv_size a % 256) ::
          (a.payload ++ attributes_wire rest)).drop 4).take a.payload_size
          = a.payload := by
        rw [← hlen]
        simp only [List.drop_succ_cons, List.drop_zero]
        exact List.take_left _ _
      have hsize : tlv_size a - 4 = a.payload_size := by
        simp only [tlv_size]; omega
      have hlt1 : ¬ (((a.type / 256 % 256) :: (a.type % 256) ::
          (tlv_size a / 256 % 256) :: (tlv_size a % 256) ::
          (a.payload ++ attributes_wire rest)).length < 4) := by
        simp only [List.length_cons]; omega
      have hlt2 : ¬ (tlv_size a < 4) := by
        simp only [tlv_size]; omega
      have hlt3 : ¬ (((a.type / 256 % 256) :: (a.type % 256) ::
          (tlv_size a / 256 % 256) :: (tlv_size a % 256) ::
          (a.payload ++ attributes_wire rest)).length < tlv_size a) := by
        simp only [List.length_cons, List.length_append, tlv_size]; omega
      have hrec : decode_attributes fuel (attributes_wire rest) = Except.ok rest :=
        ih fuel hrest (by omega)
      rw [decode_attributes]
      simp only [hT, hL, hdrop, hsize, htake, hlt1, hlt2, hlt3, hrec, if_false]

theorem decode_attributes_fuel_bounded (n : Nat) :
    ∀ bytes : List Nat, bytes.length ≤ n → ∀ f1 f2 : Nat,
      bytes.length ≤ f1 → bytes.length ≤ f2 →
      decode_attributes f1 bytes = decode_attributes f2 bytes := by
  induction n with
  | zero =>
    intro bytes hn f1 f2 _ _
    have hnil : bytes = [] := List.length_eq_zero.mp (by omega)
    subst hnil
    cases f1 <;> cases f2 <;> rfl
  | succ n ih =>
    intro bytes hn f1 f2 h1 h2
    cases bytes with
    | nil => cases f1 <;> cases f2 <;> rfl
    | cons b bs =>
      simp only [List.length_cons] at hn h1 h2
      cases f1 with
      | zero => omega
      | succ f1 =>
        cases f2 with
        | zero => omega
        | succ f2 =>
          rw [decode_attributes, decode_attributes]
          by_cases c1 : (b :: bs).length < 4
          · simp only [c1, if_true]
          · by_cases c2 : read_be16 ((b :: bs).drop 2) < 4
            · simp only [c1, c2, if_true, if_false]
            · by_cases c3 : (b :: bs).length < read_be16 ((b :: bs).drop 2)
              · simp only [c1, c2, c3, if_true, if_false]
              · have hd : ((b :: bs).drop (read_be16 ((b :: bs).drop 2))).length
                    = bs.length + 1 - read_be16 ((b :: bs).drop 2) := by
                  rw [List.length_drop, List.length_cons]
                have e := ih ((b :: bs).drop (read_be16 ((b :: bs).drop 2)))
                  (by omega) f1 f2 (by omega) (by omega)
                simp only [c1, c2, c3, if_false, e]

theorem decode_attributes_fuel (bytes : List Nat) (f1 f2 : Nat)
    (h1 : bytes.length ≤ f1) (h2 : bytes.length ≤ f2) :
    decode_attributes f1 bytes = decode_attributes f2 bytes :=
  decode_attributes_fuel_bounded bytes.length bytes (Nat.le_refl _) f1 f2 h1 h2

theorem frame_wire_drop16 (t f0 f1 : Nat) (attrs : List enp_attribute) :
    (frame_wire t f0 f1 attrs).drop 16 = attributes_wire attrs := by
  simp [frame_wire, be32]

theorem frame_wire_drop4 (t f0 f1 : Nat) (attrs : List enp_attribute) :
    (frame_wire t f0 f1 attrs).drop 4
      = be32 (frame_size attrs) ++ (be32 f0 ++ be32 f1 ++ attributes_wire attrs) := by
  simp [frame_wire, be32]

theorem frame_wire_drop8 (t f0 f1 : Nat) (attrs : List enp_attribute) :
    (frame_wire t f0 f1 attrs).drop 8 = be32 f0 ++ (be32 f1 ++ attributes_wire attrs) := by
  simp [frame_wire, be32]

theorem frame_wire_drop12 (t f0 f1 : Nat) (attrs : List enp_attribute) :
    (frame_wire t f0 f1 attrs).drop 12 = be32 f1 ++ attributes_wire attrs := by
  simp [frame_wire, be32]

theorem frame_wire_head (t f0 f1 : Nat) (attrs : List enp_attribute) :
    frame_wire t f0 f1 attrs
      = be32 t ++ (be32 (frame_size attrs) ++ be32 f0 ++ be32 f1 ++ attributes_wire attrs) := by
  simp [frame_wire, be32]

theorem encode_valid (m : Message) (hv : m.valid) :
    encode m = Except.ok (frame_wire m.message_type.value m.field0 m.field1 m.attributes) := by
  obtain ⟨_, _, hattrs, htotal⟩ := hv
  have h1 : ¬ (m.message_type = ENP_MESSAGE_TYPE_INVALID) := message_type_ne_invalid m
  have h2 : m.attributes.any (fun a => decide (UINT16_MAX < tlv_size a)) = false := by
    rw [List.any_eq_false]
    intro a ha
    have := (hattrs a ha).2
    simp only [decide_eq_true_eq]
    omega
  have h3 : ¬ (UINT32_MAX < frame_size m.attributes) := by omega
  simp only [encode, h1, h2, h3, if_false, Bool.false_eq_true]

theorem decode_frame_wire (m : Message) (hv : m.valid) :
    decode (frame_wire m.message_type.value m.field0 m.field1 m.attributes)
      = Except.ok m := by
  obtain ⟨hf0, hf1, hattrs, htotal⟩ := hv
  have hlen : (frame_wire m.message_type.value m.field0 m.field1 m.attributes).length
      = frame_size m.attributes :=
    frame_wire_length _ _ _ _ (fun a ha => (hattrs a ha).1.2.2.1)
  have htyle : m.message_type.value ≤ UINT32_MAX := by
    cases m <;> simp [Message.message_type, enp_message_type.value, UINT32_MAX]
  have hty : read_be32 (frame_wire m.message_type.value m.field0 m.field1 m.attributes)
      = m.message_type.value := by
    rw [frame_wire_head]; exact read_be32_be32 _ htyle _
  have hdecl : read_be32
      ((frame_wire m.message_type.value m.field0 m.field1 m.attributes).drop 4)
      = frame_size m.attributes := by
    rw [frame_wire_drop4]; exact read_be32_be32 _ htotal _
  have h0 : read_be32
      ((frame_wire m.message_type.value m.field0 m.field1 m.attributes).drop 8)
      = m.field0 := by
    rw [frame_wire_drop8]; exact read_be32_be32 _ hf0 _
  have h1 : read_be32
      ((frame_wire m.message_type.value m.field0 m.field1 m.attributes).drop 12)
      = m.field1 := by
    rw [frame_wire_drop12]; exact read_be32_be32 _ hf1 _
  have hattr : decode_attributes (frame_size m.attributes)
      (attributes_wire m.attributes) = Except.ok m.attributes := by
    apply decode_attributes_wire _ _ hattrs
    rw [attributes_wire_length _ (fun a ha => (hattrs a ha).1.2.2.1)]
    simp only [frame_size]; omega
  have h16 : ¬ (frame_size m.attributes < ENP_MESSAGE_TYPE_SIZE_BYTES +
      ENP_MESSAGE_LENGTH_SIZE_BYTES + ENP_FIXED_HEADER_SIZE_BYTES) := by
    simp only [frame_size, ENP_MESSAGE_TYPE_SIZE_BYTES, ENP_MESSAGE_LENGTH_SIZE_BYTES,
      ENP_FIXED_HEADER_SIZE_BYTES]
    omega
  simp only [decode, hlen, hty, hdecl, h0, h1, frame_wire_drop16, hattr, h16, if_false,
    recognise_value _ (message_type_ne_invalid m), ne_eq, not_true_eq_false,
    ofParts_parts]

theorem decode_unrecognised (buf : List Nat) (hlen : 16 ≤ buf.length)
    (hty : recognise (read_be32 buf) = none) :
    decode buf = Except.error (DecodeError.UnknownMessageType (read_be32 buf)) := by
  have h16 : ¬ (buf.length < ENP_MESSAGE_TYPE_SIZE_BYTES +
      ENP_MESSAGE_LENGTH_SIZE_BYTES + ENP_FIXED_HEADER_SIZE_BYTES) := by
    simp only [ENP_MESSAGE_TYPE_SIZE_BYTES, ENP_MESSAGE_LENGTH_SIZE_BYTES,
      ENP_FIXED_HEADER_SIZE_BYTES]
    omega
  simp only [decode, h16, if_false, hty]

theorem boundary_attribute_ok :
    (∀ a ∈ ([⟨7, [1, 2, 3], 3⟩, ⟨9, [], 0⟩, ⟨65535, List.replicate 65531 255, 65531⟩] :
        List enp_attribute), a.wellFormed ∧ tlv_size a ≤ UINT16_MAX) := by
  intro a ha
  simp only [List.mem_cons, List.mem_singleton, List.not_mem_nil, or_false] at ha
  rcases ha with rfl | rfl | rfl
  · decide
  · decide
  · refine ⟨⟨by decide, by decide, ?_, ?_⟩, by decide⟩
    · exact List.length_replicate _ _
    · intro b hb
      rw [List.eq_of_mem_replicate hb]
      decide

theorem boundary_message_valid :
    (Message.movement ⟨90, 4294967295⟩
      [⟨7, [1, 2, 3], 3⟩, ⟨9, [], 0⟩, ⟨65535, List.replicate 65531 255, 65531⟩]).valid :=
  ⟨by decide, by decide, boundary_attribute_ok, by decide⟩

/-! ## Claims on the frame size -/

/-- C3: total length correctness over the size helpers.  For attributes with
`uint16_t` payload sizes whose true frame size `16 + sum (4 + p_i)` is at most
4294967295, `enp_message_encoded_size` applied to the accumulated
`enp_attribute_encoded_size` values equals the byte length of the frame laid
out as type, total length, fixed header and TLVs; it fits the 32-bit total
length field, and it is the value that field holds. -/
theorem total_length_correct (w : Nat) (hw : 32 ≤ w) (attrs : List enp_attribute)
    (hsz : ∀ a ∈ attrs, a.payload_size ≤ UINT16_MAX ∧ a.payload.length = a.payload_size)
    (hfit : 16 + ((attrs.map (fun a => a.payload_size)).map (fun p => 4 + p)).sum
      ≤ 4294967295)
    (message_type field0 field1 : Nat) :
    enp_message_encoded_size w (attributes_total_size w (attrs.map (fun a => a.payload_size)))
      = (frame_wire message_type field0 field1 attrs).length ∧
    enp_message_encoded_size w (attributes_total_size w (attrs.map (fun a => a.payload_size)))
      ≤ UINT32_MAX ∧
    read_be32 ((frame_wire message_type field0 field1 attrs).drop 4)
      = enp_message_encoded_size w
          (attributes_total_size w (attrs.map (fun a => a.payload_size))) := by
  have hpow := two_pow_ge_of_le hw
  rw [← tlv_total_eq_sum] at hfit
  have htot : attributes_total_size w (attrs.map (fun a => a.payload_size))
      = tlv_total attrs :=
    attributes_total_size_exact w hw attrs (fun a ha => (hsz a ha).1)
      (by simp only [SIZE_MAX]; omega)
  have hmsg : enp_message_encoded_size w (tlv_total attrs) = 16 + tlv_total attrs :=
    message_size_exact (by simp only [SIZE_MAX]; omega)
  have hlen := frame_wire_length message_type field0 field1 attrs
    (fun a ha => (hsz a ha).2)
  have hfield : read_be32 ((frame_wire message_type field0 field1 attrs).drop 4)
      = frame_size attrs := by
    have e : (frame_wire message_type field0 field1 attrs).drop 4
        = be32 (frame_size attrs) ++
            (be32 field0 ++ be32 field1 ++ attributes_wire attrs) := by
      simp [frame_wire, be32]
    rw [e]
    exact read_be32_be32 _ (by simp only [frame_size, UINT32_MAX]; omega) _
  rw [htot, hmsg, hlen, hfield]
  exact ⟨rfl, hfit, rfl⟩

theorem total_length_correct_witness :
    enp_message_encoded_size 32 (attributes_total_size 32
        (([⟨7, [1, 2, 3], 3⟩, ⟨9, [], 0⟩] : List enp_attribute).map
          (fun a => a.payload_size)))
      = (frame_wire 1 1 3 [⟨7, [1, 2, 3], 3⟩, ⟨9, [], 0⟩]).length ∧
    enp_message_encoded_size 32 (attributes_total_size 32
        (([⟨7, [1, 2, 3], 3⟩, ⟨9, [], 0⟩] : List enp_attribute).map
          (fun a => a.payload_size)))
      ≤ UINT32_MAX ∧
    read_be32 ((frame_wire 1 1 3 [⟨7, [1, 2, 3], 3⟩, ⟨9, [], 0⟩]).drop 4)
      = enp_message_encoded_size 32 (attributes_total_size 32
        (([⟨7, [1, 2, 3], 3⟩, ⟨9, [], 0⟩] : List enp_attribute).map
          (fun a => a.payload_size))) :=
  total_length_correct 32 (by decide) [⟨7, [1, 2, 3], 3⟩, ⟨9, [], 0⟩]
    (by decide) (by decide) 1 1 3

/-- C4: the HANDSHAKE scenario.  The HANDSHAKE type id is 1, on the wire
`00 00 00 01`; the size of a message without attributes is 16 for a 32-bit and
for a 64-bit `size_t`, on the wire `00 00 00 10`; the frame for
`protocol_version = 1`, `capabilities_flags = 3` is exactly the 16 bytes
`00000001 00000010 00000001 00000003`: 4 (type) + 4 (length) + 8 (two `u32`
header fields). -/
theorem handshake_scenario :
    ENP_MESSAGE_TYPE_HANDSHAKE.value = 1 ∧
    be32 ENP_MESSAGE_TYPE_HANDSHAKE.value = [0x00, 0x00, 0x00, 0x01] ∧
    enp_message_encoded_size 32 0 = 16 ∧
    enp_message_encoded_size 64 0 = 16 ∧
    be32 (enp_message_encoded_size 32 0) = [0x00, 0x00, 0x00, 0x10] ∧
    frame_wire ENP_MESSAGE_TYPE_HANDSHAKE.value 1 0x00000003 [] =
      [0x00, 0x00, 0x00, 0x01, 0x00, 0x00, 0x00, 0x10,
       0x00, 0x00, 0x00, 0x01, 0x00, 0x00, 0x00, 0x03] ∧
    (frame_wire ENP_MESSAGE_TYPE_HANDSHAKE.value 1 0x00000003 []).length
      = enp_message_encoded_size 32 0 ∧
    enp_message_encoded_size 32 0
      = ENP_MESSAGE_TYPE_SIZE_BYTES + ENP_MESSAGE_LENGTH_SIZE_BYTES
          + fields_width enp_handshake_header_fields ∧
    fields_width enp_handshake_header_fields = 4 + 4 := by
  decide

/-! ## Claims on the type ids -/

/-- C5: the numeric values of `enp_message_type` are INVALID = 0, HANDSHAKE = 1,
DESTINATION = 2, MOVEMENT = 3, LOCATION_REQUEST = 4, LOCATION_UPDATE = 5; the
values are pairwise distinct, and the only enumerator with value 0 is
INVALID. -/
theorem message_type_values :
    ENP_MESSAGE_TYPE_INVALID.value = 0 ∧
    ENP_MESSAGE_TYPE_HANDSHAKE.value = 1 ∧
    ENP_MESSAGE_TYPE_DESTINATION.value = 2 ∧
    ENP_MESSAGE_TYPE_MOVEMENT.value = 3 ∧
    ENP_MESSAGE_TYPE_LOCATION_REQUEST.value = 4 ∧
    ENP_MESSAGE_TYPE_LOCATION_UPDATE.value = 5 ∧
    Function.Injective enp_message_type.value ∧
    (enp_message_type.all.map enp_message_type.value).Nodup ∧
    ∀ t : enp_message_type, t.value = 0 ↔ t = ENP_MESSAGE_TYPE_INVALID := by
  refine ⟨rfl, rfl, rfl, rfl, rfl, rfl, ?_, by decide, ?_⟩
  · intro a b h
    cases a <;> cases b <;> first | rfl | exact absurd h (by decide)
  · intro t
    cases t <;> decide

/-! ## Claims on overflow and boundaries -/

/-- C6, as the claim states it, fails: the helper has no check.  With a 32-bit
`size_t` and `attributes_total_size = 4294967295` it returns the wrapped value
15, which is neither `16 + 4294967295` nor greater than its argument; the same
happens with a 64-bit `size_t` at `2 ^ 64 - 1`. -/
theorem message_size_wraps_at_size_max :
    (4294967295 ≤ SIZE_MAX 32 ∧
      enp_message_encoded_size 32 4294967295 = 15 ∧
      enp_message_encoded_size 32 4294967295 ≠ 16 + 4294967295 ∧
      ¬ 4294967295 < enp_message_encoded_size 32 4294967295) ∧
    (18446744073709551615 ≤ SIZE_MAX 64 ∧
      enp_message_encoded_size 64 18446744073709551615 = 15 ∧
      enp_message_encoded_size 64 18446744073709551615 ≠ 16 + 18446744073709551615 ∧
      ¬ 18446744073709551615 < enp_message_encoded_size 64 18446744073709551615) := by
  decide

/-- C6, amended: `enp_message_encoded_size` checks nothing and returns
`(16 + attributes_total_size) mod 2 ^ w`.  For a `size_t` argument the result
is the exact integer `16 + attributes_total_size`, and strictly greater than
the argument, exactly when `attributes_total_size + 16` is representable; for
the 16 largest arguments it wraps to `attributes_total_size + 16 - 2 ^ w`,
which is below 16. -/
theorem message_size_exact_iff_representable (w : Nat) (hw : 32 ≤ w)
    (attributes_total_size : Nat) (ha : attributes_total_size ≤ SIZE_MAX w) :
    enp_message_encoded_size w attributes_total_size
      = (16 + attributes_total_size) % 2 ^ w ∧
    (enp_message_encoded_size w attributes_total_size = 16 + attributes_total_size
      ↔ attributes_total_size + 16 ≤ SIZE_MAX w) ∧
    (attributes_total_size < enp_message_encoded_size w attributes_total_size
      ↔ attributes_total_size + 16 ≤ SIZE_MAX w) ∧
    (SIZE_MAX w < attributes_total_size + 16 →
      enp_message_encoded_size w attributes_total_size
        = attributes_total_size + 16 - 2 ^ w ∧
      enp_message_encoded_size w attributes_total_size < 16) := by
  have hpow := two_pow_ge_of_le hw
  simp only [SIZE_MAX] at ha ⊢
  have hmod := message_size_mod w attributes_total_size
  by_cases hfit : attributes_total_size + 16 ≤ 2 ^ w - 1
  · have e : enp_message_encoded_size w attributes_total_size
        = 16 + attributes_total_size := by
      rw [hmod]; exact Nat.mod_eq_of_lt (by omega)
    refine ⟨hmod, ?_, ?_, ?_⟩
    · exact ⟨fun _ => hfit, fun _ => e⟩
    · exact ⟨fun _ => hfit, fun _ => by omega⟩
    · intro h; omega
  · have e : enp_message_encoded_size w attributes_total_size
        = attributes_total_size + 16 - 2 ^ w := by
      rw [hmod]
      have h1 : 16 + attributes_total_size
          = (attributes_total_size + 16 - 2 ^ w) + 2 ^ w := by omega
      rw [h1, Nat.add_mod_right]
      exact Nat.mod_eq_of_lt (by omega)
    refine ⟨hmod, ?_, ?_, ?_⟩
    · exact ⟨fun h => by omega, fun h => absurd h hfit⟩
    · exact ⟨fun h => by omega, fun h => absurd h hfit⟩
    · intro _; exact ⟨e, by omega⟩

theorem message_size_exact_iff_representable_witness :
    32 ≤ 32 ∧ 4294967290 ≤ SIZE_MAX 32 ∧
    enp_message_encoded_size 32 4294967290 = (16 + 4294967290) % 2 ^ 32 ∧
    (enp_message_encoded_size 32 4294967290 = 16 + 4294967290
      ↔ 4294967290 + 16 ≤ SIZE_MAX 32) ∧
    (4294967290 < enp_message_encoded_size 32 4294967290
      ↔ 4294967290 + 16 ≤ SIZE_MAX 32) ∧
    (SIZE_MAX 32 < 4294967290 + 16 →
      enp_message_encoded_size 32 4294967290 = 4294967290 + 16 - 2 ^ 32 ∧
      enp_message_encoded_size 32 4294967290 < 16) :=
  ⟨by decide, by decide,
    message_size_exact_iff_representable 32 (by decide) 4294967290 (by decide)⟩

/-- C7: attribute size boundary.  For every `uint16_t` payload size the TLV
size is at most 65535, so fits the 2-byte attribute length field, if and only
if `payload_size ≤ 65531`; 65531 gives exactly 65535, and each payload size in
65532..65535, a valid `payload_size` member, gives a TLV size above 65535. -/
theorem attribute_size_boundary (w : Nat) (hw : 32 ≤ w) (payload_size : Nat)
    (hp : payload_size ≤ UINT16_MAX) :
    (enp_attribute_encoded_size w payload_size ≤ 65535 ↔ payload_size ≤ 65531) ∧
    (enp_attribute_encoded_size w payload_size < 2 ^ (8 * ENP_ATTRIBUTE_LENGTH_SIZE_BYTES)
      ↔ payload_size ≤ 65531) ∧
    enp_attribute_encoded_size w 65531 = 65535 ∧
    (65532 ≤ payload_size → 65535 < enp_attribute_encoded_size w payload_size) := by
  have e := attribute_size_exact hw hp
  have e1 : enp_attribute_encoded_size w 65531 = 4 + 65531 :=
    attribute_size_exact hw (by decide)
  have h2 : 2 ^ (8 * ENP_ATTRIBUTE_LENGTH_SIZE_BYTES) = 65536 := by decide
  rw [e, e1, h2]
  refine ⟨by omega, by omega, rfl, fun h => by omega⟩

theorem attribute_size_boundary_witness :
    32 ≤ 64 ∧ 65532 ≤ UINT16_MAX ∧
    (enp_attribute_encoded_size 64 65532 ≤ 65535 ↔ 65532 ≤ 65531) ∧
    (enp_attribute_encoded_size 64 65532 < 2 ^ (8 * ENP_ATTRIBUTE_LENGTH_SIZE_BYTES)
      ↔ 65532 ≤ 65531) ∧
    enp_attribute_encoded_size 64 65531 = 65535 ∧
    (65532 ≤ 65532 → 65535 < enp_attribute_encoded_size 64 65532) :=
  ⟨by decide, by decide, attribute_size_boundary 64 (by decide) 65532 (by decide)⟩

/-! ## Claims on the fixed headers -/

/-- C8: each of the five message-specific header structs has exactly two
members, both `uint32_t`, named and ordered as the design document lists them,
so its members take 4 + 4 = 8 = `ENP_FIXED_HEADER_SIZE_BYTES` bytes. -/
theorem fixed_header_layouts :
    (∀ fs ∈ [enp_handshake_header_fields, enp_destination_header_fields,
        enp_movement_header_fields, enp_location_request_header_fields,
        enp_location_header_fields],
      fs.length = 2 ∧ (∀ f ∈ fs, f.ctype = CType.uint32_t) ∧
      fields_width fs = 4 + 4 ∧ fields_width fs = ENP_FIXED_HEADER_SIZE_BYTES) ∧
    (∀ t : enp_message_type,
      (header_fields t).map (fun f => (f.name, f.ctype.wireWidth)) = spec_header_layout t) ∧
    enp_handshake_header_fields.map (fun f => f.name)
      = ["protocol_version", "capabilities_flags"] ∧
    enp_destination_header_fields.map (fun f => f.name)
      = ["direction", "distance_meters"] ∧
    enp_movement_header_fields.map (fun f => f.name)
      = ["direction", "speed_centimeters_per_second"] ∧
    enp_location_request_header_fields.map (fun f => f.name)
      = ["reserved0", "reserved1"] ∧
    enp_location_header_fields.map (fun f => f.name)
      = ["latitude_e7", "longitude_e7"] := by
  refine ⟨by decide, ?_, rfl, rfl, rfl, rfl, rfl⟩
  intro t
  cases t <;> rfl

/-! ## Claims on the codec -/

/-- C9: round trip.  For every valid message, of any of the five types and
with any number of attributes (a 0-length payload and a 65531-byte payload
included), `encode` succeeds and `decode` of the bytes it yields returns the
same message: same type, same header fields, same attributes in the same
order. -/
theorem round_trip (m : Message) (hv : m.valid) :
    ∃ bytes : List Nat, encode m = Except.ok bytes ∧ decode bytes = Except.ok m ∧
      bytes.length = frame_size m.attributes :=
  ⟨frame_wire m.message_type.value m.field0 m.field1 m.attributes,
    encode_valid m hv, decode_frame_wire m hv,
    frame_wire_length _ _ _ _ (fun a ha => (hv.2.2.1 a ha).1.2.2.1)⟩

theorem round_trip_witness :
    (Message.movement ⟨90, 4294967295⟩
      [⟨7, [1, 2, 3], 3⟩, ⟨9, [], 0⟩, ⟨65535, List.replicate 65531 255, 65531⟩]).valid ∧
    ∃ bytes : List Nat,
      encode (Message.movement ⟨90, 4294967295⟩
        [⟨7, [1, 2, 3], 3⟩, ⟨9, [], 0⟩, ⟨65535, List.replicate 65531 255, 65531⟩])
        = Except.ok bytes ∧
      decode bytes = Except.ok (Message.movement ⟨90, 4294967295⟩
        [⟨7, [1, 2, 3], 3⟩, ⟨9, [], 0⟩, ⟨65535, List.replicate 65531 255, 65531⟩]) ∧
      bytes.length = frame_size (Message.movement ⟨90, 4294967295⟩
        [⟨7, [1, 2, 3], 3⟩, ⟨9, [], 0⟩,
          ⟨65535, List.replicate 65531 255, 65531⟩]).attributes :=
  ⟨boundary_message_valid, round_trip _ boundary_message_valid⟩

/-- C10: unknown type rejection.  A frame (16 bytes or more) whose 32-bit
message type reads 0x00000000 (INVALID) or 0x000000FF (unassigned) is rejected
by `decode` with `UnknownMessageType` of that value; over the enum of the
header a value is the id of a defined type other than INVALID if and only if
it lies in 1..5, so neither 0 nor 255 is recognised. -/
theorem unknown_type_rejected (buf : List Nat) (hlen : 16 ≤ buf.length)
    (hty : read_be32 buf = 0x00000000 ∨ read_be32 buf = 0x000000FF) :
    decode buf = Except.error (DecodeError.UnknownMessageType (read_be32 buf)) ∧
    (∀ v : Nat, (∃ t : enp_message_type, t ≠ ENP_MESSAGE_TYPE_INVALID ∧ t.value = v)
      ↔ 1 ≤ v ∧ v ≤ 5) ∧
    (∀ v : Nat, (recognise v).isSome = true ↔ 1 ≤ v ∧ v ≤ 5) ∧
    recognise 0x00000000 = none ∧ recognise 0x000000FF = none := by
  have hids : ∀ v : Nat,
      (∃ t : enp_message_type, t ≠ ENP_MESSAGE_TYPE_INVALID ∧ t.value = v)
        ↔ 1 ≤ v ∧ v ≤ 5 := by
    intro v
    constructor
    · rintro ⟨t, ht, rfl⟩
      cases t
      · exact absurd rfl ht
      all_goals decide
    · rintro ⟨h1, h5⟩
      have hv : v = 1 ∨ v = 2 ∨ v = 3 ∨ v = 4 ∨ v = 5 := by omega
      rcases hv with rfl | rfl | rfl | rfl | rfl
      · exact ⟨ENP_MESSAGE_TYPE_HANDSHAKE, by decide, rfl⟩
      · exact ⟨ENP_MESSAGE_TYPE_DESTINATION, by decide, rfl⟩
      · exact ⟨ENP_MESSAGE_TYPE_MOVEMENT, by decide, rfl⟩
      · exact ⟨ENP_MESSAGE_TYPE_LOCATION_REQUEST, by decide, rfl⟩
      · exact ⟨ENP_MESSAGE_TYPE_LOCATION_UPDATE, by decide, rfl⟩
  have hrec : ∀ v : Nat, (recognise v).isSome = true ↔ 1 ≤ v ∧ v ≤ 5 := by
    intro v
    rw [← hids v, Option.isSome_iff_exists]
    exact exists_congr (fun t => recognise_eq_some_iff v t)
  refine ⟨?_, hids, hrec, by decide, by decide⟩
  apply decode_unrecognised buf hlen
  rcases hty with h | h <;> rw [h] <;> decide

theorem unknown_type_rejected_witness :
    16 ≤ ([0, 0, 0, 255, 0, 0, 0, 16, 0, 0, 0, 1, 0, 0, 0, 3] : List Nat).length ∧
    (read_be32 [0, 0, 0, 255, 0, 0, 0, 16, 0, 0, 0, 1, 0, 0, 0, 3] = 0x00000000 ∨
      read_be32 [0, 0, 0, 255, 0, 0, 0, 16, 0, 0, 0, 1, 0, 0, 0, 3] = 0x000000FF) ∧
    decode [0, 0, 0, 255, 0, 0, 0, 16, 0, 0, 0, 1, 0, 0, 0, 3]
      = Except.error (DecodeError.UnknownMessageType
          (read_be32 [0, 0, 0, 255, 0, 0, 0, 16, 0, 0, 0, 1, 0, 0, 0, 3])) ∧
    (∀ v : Nat, (∃ t : enp_message_type, t ≠ ENP_MESSAGE_TYPE_INVALID ∧ t.value = v)
      ↔ 1 ≤ v ∧ v ≤ 5) ∧
    (∀ v : Nat, (recognise v).isSome = true ↔ 1 ≤ v ∧ v ≤ 5) ∧
    recognise 0x00000000 = none ∧ recognise 0x000000FF = none :=
  ⟨by decide, by decide,
    unknown_type_rejected [0, 0, 0, 255, 0, 0, 0, 16, 0, 0, 0, 1, 0, 0, 0, 3]
      (by decide) (by decide)⟩

/-! ## Claims on the range and additivity of the size helpers -/

theorem attribute_size_of_fit {w p : Nat} (h : 4 + p ≤ SIZE_MAX w) :
    enp_attribute_encoded_size w p = 4 + p := by
  rw [attribute_size_mod]
  simp only [SIZE_MAX] at h
  have hpos : 0 < 2 ^ w := Nat.two_pow_pos w
  exact Nat.mod_eq_of_lt (by omega)

theorem message_size_add_mod (w a p : Nat) :
    enp_message_encoded_size w (sizeAdd w a (enp_attribute_encoded_size w p))
      = (16 + a + (4 + p)) % 2 ^ w := by
  rw [message_size_mod, attribute_size_mod]
  simp only [sizeAdd]
  rw [Nat.add_mod_mod, ← Nat.add_assoc, Nat.add_mod_mod]

theorem size_add_message_mod (w a p : Nat) :
    sizeAdd w (enp_message_encoded_size w a) (enp_attribute_encoded_size w p)
      = (16 + a + (4 + p)) % 2 ^ w := by
  rw [message_size_mod, attribute_size_mod]
  simp only [sizeAdd]
  rw [Nat.mod_add_mod, Nat.add_mod_mod]

/-- C11: minimum frame size.  Whenever `attributes_total_size + 16` is
representable in `size_t`, `enp_message_encoded_size` returns at least
16 = type width + length width + fixed header width, and exactly 16 if and
only if `attributes_total_size = 0`; so no size it predicts is below the
16 bytes a decoder requires before reading a frame. -/
theorem minimum_frame_size (w : Nat) (attributes_total_size : Nat)
    (h : attributes_total_size + 16 ≤ SIZE_MAX w) :
    16 ≤ enp_message_encoded_size w attributes_total_size ∧
    ENP_MESSAGE_TYPE_SIZE_BYTES + ENP_MESSAGE_LENGTH_SIZE_BYTES
      + ENP_FIXED_HEADER_SIZE_BYTES = 16 ∧
    ¬ (enp_message_encoded_size w attributes_total_size
        < ENP_MESSAGE_TYPE_SIZE_BYTES + ENP_MESSAGE_LENGTH_SIZE_BYTES
          + ENP_FIXED_HEADER_SIZE_BYTES) ∧
    (enp_message_encoded_size w attributes_total_size = 16 ↔ attributes_total_size = 0) := by
  have e := message_size_exact h
  have hc : ENP_MESSAGE_TYPE_SIZE_BYTES + ENP_MESSAGE_LENGTH_SIZE_BYTES
      + ENP_FIXED_HEADER_SIZE_BYTES = 16 := rfl
  rw [e, hc]
  refine ⟨by omega, rfl, by omega, by omega⟩

theorem minimum_frame_size_witness :
    0 + 16 ≤ SIZE_MAX 32 ∧
    16 ≤ enp_message_encoded_size 32 0 ∧
    ENP_MESSAGE_TYPE_SIZE_BYTES + ENP_MESSAGE_LENGTH_SIZE_BYTES
      + ENP_FIXED_HEADER_SIZE_BYTES = 16 ∧
    ¬ (enp_message_encoded_size 32 0
        < ENP_MESSAGE_TYPE_SIZE_BYTES + ENP_MESSAGE_LENGTH_SIZE_BYTES
          + ENP_FIXED_HEADER_SIZE_BYTES) ∧
    (enp_message_encoded_size 32 0 = 16 ↔ 0 = 0) :=
  ⟨by decide, minimum_frame_size 32 0 (by decide)⟩

/-- C12: for every `uint16_t` payload size and every `size_t` of at least 32
bits, `enp_attribute_encoded_size` lies in 4..65539 (both ends attained), is
the unwrapped sum `4 + payload_size`, so is at least the 4 a decoder requires
of an attribute length; it equals 4 exactly when `payload_size = 0`, and
subtracting 4 from it recovers `payload_size`. -/
theorem attribute_size_range (w : Nat) (hw : 32 ≤ w) (payload_size : Nat)
    (hp : payload_size ≤ UINT16_MAX) :
    4 ≤ enp_attribute_encoded_size w payload_size ∧
    enp_attribute_encoded_size w payload_size ≤ 65539 ∧
    enp_attribute_encoded_size w payload_size = 4 + payload_size ∧
    4 + payload_size ≤ SIZE_MAX w ∧
    enp_attribute_encoded_size w 0 = 4 ∧
    enp_attribute_encoded_size w 65535 = 65539 ∧
    (enp_attribute_encoded_size w payload_size = 4 ↔ payload_size = 0) ∧
    enp_attribute_encoded_size w payload_size - 4 = payload_size := by
  have hpow := two_pow_ge_of_le hw
  have e := attribute_size_exact hw hp
  have e0 : enp_attribute_encoded_size w 0 = 4 + 0 := attribute_size_exact hw (by decide)
  have e1 : enp_attribute_encoded_size w 65535 = 4 + 65535 :=
    attribute_size_exact hw (by decide)
  simp only [UINT16_MAX] at hp
  rw [e, e0, e1]
  refine ⟨by omega, by omega, rfl, ?_, rfl, rfl, by omega, by omega⟩
  simp only [SIZE_MAX]
  omega

theorem attribute_size_range_witness :
    32 ≤ 32 ∧ 65535 ≤ UINT16_MAX ∧
    4 ≤ enp_attribute_encoded_size 32 65535 ∧
    enp_attribute_encoded_size 32 65535 ≤ 65539 ∧
    enp_attribute_encoded_size 32 65535 = 4 + 65535 ∧
    4 + 65535 ≤ SIZE_MAX 32 ∧
    enp_attribute_encoded_size 32 0 = 4 ∧
    enp_attribute_encoded_size 32 65535 = 65539 ∧
    (enp_attribute_encoded_size 32 65535 = 4 ↔ 65535 = 0) ∧
    enp_attribute_encoded_size 32 65535 - 4 = 65535 :=
  ⟨by decide, by decide, attribute_size_range 32 (by decide) 65535 (by decide)⟩

/-- C13: appending an attribute grows the message by exactly its TLV size.
For all `a` and `p`, so for every `size_t` value `a` and every `uint16_t`
payload size `p`,
`enp_message_encoded_size (a + enp_attribute_encoded_size p)` equals
`enp_message_encoded_size a + enp_attribute_encoded_size p` with both additions
in `size_t` arithmetic (modulo `2 ^ w`); and whenever `a + p + 20` is
representable in `size_t` the same holds with exact integer additions, the
common value being `a + p + 20`. -/
theorem append_attribute_size (w : Nat) (a p : Nat) :
    enp_message_encoded_size w (sizeAdd w a (enp_attribute_encoded_size w p))
      = sizeAdd w (enp_message_encoded_size w a) (enp_attribute_encoded_size w p) ∧
    (a + p + 20 ≤ SIZE_MAX w →
      enp_message_encoded_size w (a + enp_attribute_encoded_size w p)
        = enp_message_encoded_size w a + enp_attribute_encoded_size w p ∧
      enp_message_encoded_size w (a + enp_attribute_encoded_size w p) = a + p + 20 ∧
      sizeAdd w a (enp_attribute_encoded_size w p) = a + enp_attribute_encoded_size w p ∧
      sizeAdd w (enp_message_encoded_size w a) (enp_attribute_encoded_size w p)
        = enp_message_encoded_size w a + enp_attribute_encoded_size w p) := by
  refine ⟨by rw [message_size_add_mod, size_add_message_mod], ?_⟩
  intro hfit
  have hattr : enp_attribute_encoded_size w p = 4 + p :=
    attribute_size_of_fit (by omega)
  have hmsg : enp_message_encoded_size w a = 16 + a :=
    message_size_exact (by omega)
  have hsum : enp_message_encoded_size w (a + (4 + p)) = 16 + (a + (4 + p)) :=
    message_size_exact (by omega)
  have hlt : a + p + 20 < 2 ^ w := by
    simp only [SIZE_MAX] at hfit
    have hpos : 0 < 2 ^ w := Nat.two_pow_pos w
    omega
  rw [hattr, hmsg, hsum]
  simp only [sizeAdd]
  refine ⟨by omega, by omega, Nat.mod_eq_of_lt (by omega), Nat.mod_eq_of_lt (by omega)⟩

theorem append_attribute_size_witness :
    1000 ≤ SIZE_MAX 32 ∧ 65535 ≤ UINT16_MAX ∧ 1000 + 65535 + 20 ≤ SIZE_MAX 32 ∧
    enp_message_encoded_size 32 (sizeAdd 32 1000 (enp_attribute_encoded_size 32 65535))
      = sizeAdd 32 (enp_message_encoded_size 32 1000)
          (enp_attribute_encoded_size 32 65535) ∧
    enp_message_encoded_size 32 (1000 + enp_attribute_encoded_size 32 65535)
      = enp_message_encoded_size 32 1000 + enp_attribute_encoded_size 32 65535 ∧
    enp_message_encoded_size 32 (1000 + enp_attribute_encoded_size 32 65535)
      = 1000 + 65535 + 20 :=
  have h := append_attribute_size 32 1000 65535
  ⟨by decide, by decide, by decide, h.1, (h.2 (by decide)).1, (h.2 (by decide)).2.1⟩

end ENP
